import Mathlib

/-!
Verification of the GGN console downloader (src/downloader.py and
src/lib/ggn_client.py) against its natural-language specification.

The Python source is shallowly embedded: the per-page torrent selection
loop, the pagination loop, the filename translation table, the request
URL construction, the response interpretation pipeline, and the download
phase are each translated into executable Lean definitions, and the
spec's claims are settled as theorems about those definitions.
-/

namespace GGN

/-- One torrent record as it appears inside a group's `Torrents` dict in a
search result page; `torrent_id` is the dict key the record is stored
under, the remaining fields are the values read by the loop in
`src/downloader.py` (`TorrentType`, `GameDOXType`, `IsSnatched`,
`GroupID`, `ReleaseTitle`, `Seeders`). -/
structure TorrentEntry where
  torrent_id : String
  release_title : String
  seeders : Nat
  groupId : Nat
  torrentType : String
  gameDOXType : String
  isSnatched : Bool
deriving DecidableEq

/-- The candidate record stored in `torrent_data` for a group
(`{"torrent_id": ..., "release_title": ..., "seeders": ...}`). -/
structure Candidate where
  torrent_id : String
  release_title : String
  seeders : Nat
deriving DecidableEq

/-- Builds the candidate dict written by `torrent_data[data["GroupID"]] = ...`
in `src/downloader.py`. -/
def mkCand (e : TorrentEntry) : Candidate :=
  { torrent_id := e.torrent_id
    release_title := e.release_title
    seeders := e.seeders }

/-- The `torrent_data` dict, as an insertion-ordered association list from
group identifier to candidate (Python dicts preserve insertion order). -/
abbrev TMap := List (Nat × Candidate)

/-- Python `torrent_data[k]` / `k in torrent_data` lookup. -/
def mapLookup (m : TMap) (k : Nat) : Option Candidate :=
  match m with
  | [] => none
  | (k', v) :: t => if k' = k then some v else mapLookup t k

/-- Python `torrent_data.pop(k, None)`: removes the binding for `k` when
present, leaves the dict unchanged otherwise. -/
def mapErase (m : TMap) (k : Nat) : TMap :=
  m.filter (fun p => p.1 ≠ k)

/-- Python `torrent_data[k] = v`: updates the binding in place when the key
is present, appends a new binding at the end otherwise. -/
def mapInsert (m : TMap) (k : Nat) (v : Candidate) : TMap :=
  match m with
  | [] => [(k, v)]
  | (k', v') :: t => if k' = k then (k, v) :: t else (k', v') :: mapInsert t k v

/-- The two content filters of the inner loop of `src/downloader.py`:
`data["TorrentType"] != "Torrent"` and `data["GameDOXType"] != ""` each
`continue` past the entry, so an entry is considered further exactly when
both equalities hold. -/
def passesFilters (e : TorrentEntry) : Bool :=
  decide (e.torrentType = "Torrent") && decide (e.gameDOXType = "")

/-- The inner loop of `src/downloader.py` over one group's
`torrent["Torrents"].items()`:
type-filtered and GameDOX-filtered entries are skipped; a snatched entry
pops the group's current candidate and `break`s out of the list; otherwise
the entry replaces the current candidate unless the current candidate has
strictly more seeders. -/
def processTorrents (m : TMap) : List TorrentEntry → TMap
  | [] => m
  | e :: rest =>
    if e.torrentType = "Torrent" then
      if e.gameDOXType = "" then
        if e.isSnatched then
          mapErase m e.groupId
        else
          let m' :=
            match mapLookup m e.groupId with
            | some c =>
              if c.seeders > e.seeders then m else mapInsert m e.groupId (mkCand e)
            | none => mapInsert m e.groupId (mkCand e)
          processTorrents m' rest
      else processTorrents m rest
    else processTorrents m rest

/-- One value of the per-page `result` dict: a group record, whose
`Torrents` key may be missing (`none`) or hold an ordered dict of torrent
records. -/
structure SearchGroup where
  torrents : Option (List TorrentEntry)
deriving DecidableEq

/-- The per-group body of the page loop in `src/downloader.py`: groups with
no `"Torrents"` key and groups with an empty torrent dict are skipped,
otherwise the inner torrent loop runs. -/
def processGroup (m : TMap) (g : SearchGroup) : TMap :=
  match g.torrents with
  | none => m
  | some ts => if ts.length = 0 then m else processTorrents m ts

/-- Processing of one search-result page: `for (_, torrent) in result.items()`
over the page's groups in order. -/
def processPage (m : TMap) (page : List SearchGroup) : TMap :=
  page.foldl processGroup m

/-! Concrete torrent entries used by the scenario theorems below. -/

/-- Group 20, non-snatched, 3 seeders (torrent A of the spec's scenario). -/
def entA : TorrentEntry :=
  { torrent_id := "A", release_title := "Game A", seeders := 3, groupId := 20
    torrentType := "Torrent", gameDOXType := "", isSnatched := false }

/-- Group 20, snatched, 1 seeder (torrent B of the spec's scenario). -/
def entB : TorrentEntry :=
  { torrent_id := "B", release_title := "Game B", seeders := 1, groupId := 20
    torrentType := "Torrent", gameDOXType := "", isSnatched := true }

/-- Group 20, non-snatched, 2 seeders, processed first in the tie scenario. -/
def entT1 : TorrentEntry :=
  { torrent_id := "T1", release_title := "Tie 1", seeders := 2, groupId := 20
    torrentType := "Torrent", gameDOXType := "", isSnatched := false }

/-- Group 20, non-snatched, 2 seeders, processed second in the tie scenario. -/
def entT2 : TorrentEntry :=
  { torrent_id := "T2", release_title := "Tie 2", seeders := 2, groupId := 20
    torrentType := "Torrent", gameDOXType := "", isSnatched := false }

/-- Group 20, snatched, 1 seeder, processed before a live entry. -/
def entS : TorrentEntry :=
  { torrent_id := "S", release_title := "Snatched S", seeders := 1, groupId := 20
    torrentType := "Torrent", gameDOXType := "", isSnatched := true }

/-- Group 20, non-snatched, 5 seeders, processed after the snatched entry. -/
def entL : TorrentEntry :=
  { torrent_id := "L", release_title := "Late L", seeders := 5, groupId := 20
    torrentType := "Torrent", gameDOXType := "", isSnatched := false }

/-- Reference fold used to state what the candidate-selection loop computes
on the filtered entries of one group: starting from the current candidate
(if any), an entry replaces the accumulator unless the accumulator has
strictly more seeders. -/
def bestCand (acc : Option Candidate) : List TorrentEntry → Option Candidate
  | [] => acc
  | e :: rest =>
    bestCand
      (match acc with
       | none => some (mkCand e)
       | some c => some (if c.seeders > e.seeders then c else mkCand e))
      rest

/-- The pagination loop of `src/downloader.py` for one category:
starting at the given page number, request each page from the result
source, stop as soon as a page has zero groups, otherwise process the page
into the candidate map and move to the next page number. Fuel bounds the
recursion; `none` means the fuel ran out before an empty page appeared.
On success the result carries the list of requested page numbers in order
and the final candidate map. -/
def scanLoop (pages : Nat → List SearchGroup) : Nat → Nat → TMap →
    Option (List Nat × TMap)
  | 0, _, _ => none
  | fuel + 1, p, m =>
    let res := pages p
    if res.length = 0 then some ([p], m)
    else
      match scanLoop pages fuel (p + 1) (processPage m res) with
      | none => none
      | some (ps, mf) => some (p :: ps, mf)

/-- The character table built by `str.maketrans` in `src/downloader.py`:
`[ \ " * ? < > | ] :` map to an underscore, `/` maps to a hyphen, every
other character is unchanged. -/
def translateChar (c : Char) : Char :=
  if c = '[' then '_'
  else if c = '\\' then '_'
  else if c = '/' then '-'
  else if c = '"' then '_'
  else if c = '*' then '_'
  else if c = '?' then '_'
  else if c = '<' then '_'
  else if c = '>' then '_'
  else if c = '|' then '_'
  else if c = ']' then '_'
  else if c = ':' then '_'
  else c

/-- `release_title.translate(file_translator)`: the table applied to every
character of the title. -/
def fileTranslate (s : String) : String :=
  ⟨s.data.map translateChar⟩

/-! ## The API client (`src/lib/ggn_client.py`) -/

/-- The serialized query components of `GGNClient._action_url`:
`[f"{key}={value}" for key, value in args.items() if value is not None]`.
Argument values are modelled already formatted as strings; `none` models
a `None` value. -/
def serializeArgs (args : List (String × Option String)) : List String :=
  args.filterMap (fun p => p.2.map (fun v => p.1 ++ "=" ++ v))

/-- `GGNClient._action_url`: the base is the override URL when one is given
and non-empty (Python truthiness), else `base_url + "?"`; with no action
(or an empty action string) the base alone is returned; otherwise the
serialized non-None arguments are joined with `&` and appended after
`&request=<action>&`. -/
def actionUrl (base_url : String) (action : Option String)
    (args : Option (List (String × Option String)))
    (override_url : Option String) : String :=
  let base :=
    match override_url with
    | some u => if u = "" then base_url ++ "?" else u
    | none => base_url ++ "?"
  match action with
  | none => base
  | some a =>
    if a = "" then base
    else
      let extra :=
        match args with
        | none => ""
        | some l =>
          if l.length > 0 then "&" ++ String.intercalate "&" (serializeArgs l)
          else ""
      base ++ "&request=" ++ a ++ "&" ++ extra

/-- The session-user record cached by the client (`self._user`), read for
its `authkey` and `passkey` when downloading. -/
structure UserInfo where
  authkey : String
  passkey : String
deriving DecidableEq

/-- The parsed `response` field of a success envelope: either the
user-info record (for the `quick_user` action) or opaque data. -/
inductive ApiPayload where
  | user (u : UserInfo)
  | data (s : String)
deriving DecidableEq

/-- An HTTP response as consumed by `GGNClient._do_request`:
`ok`/`status_code`/`text` from the transport, the `Content-Type` header
(`none` when the header is missing), and the parsed JSON envelope fields
(`json["status"]` and `json["response"]`) for bodies that are JSON. -/
structure HttpResp where
  ok : Bool
  status_code : Nat
  text : String
  contentType : Option String
  bodyStatus : String
  bodyResponse : ApiPayload
deriving DecidableEq

/-- The result of one `requests.get`: a response, or a raised transport
exception (timeout, connection error) which is not a `GGNClientException`. -/
inductive Transport where
  | success (r : HttpResp)
  | failure (msg : String)

/-- Observable side effects of the client, used to state the dry-run and
download claims: a network GET of a URL, a filesystem write, a console
print. -/
inductive Effect where
  | netGet (url : String)
  | fileWrite (loc : String)
  | printed (s : String)
deriving DecidableEq

/-- Errors surfaced by the client: `ggn` models a raised
`GGNClientException` (the only class the download loop catches), `other`
models every other raised exception (transport errors, plain
`Exception`, attribute errors). -/
inductive ReqError where
  | ggn (msg : String)
  | other (msg : String)
deriving DecidableEq

/-- Value returned by `GGNClient._do_request`: the endpoint URL (dry run),
the raw response object (non-JSON content type), or the envelope's
`response` payload (JSON success). -/
inductive ReqResult where
  | url (u : String)
  | raw (r : HttpResp)
  | payload (p : ApiPayload)
deriving DecidableEq

/-- Python `f"{action}"` when the action may be `None`. -/
def optStr (a : Option String) : String :=
  match a with
  | none => "None"
  | some s => s

/-- The response-interpretation tail of `GGNClient._do_request`: a non-ok
response raises; a response whose `Content-Type` header differs from the
exact string `application/json` is returned raw; otherwise the JSON
envelope's `status` must be `"success"` or the call raises, and the
`response` payload is returned. Errors model `GGNClientException`. -/
def interpretResponse (action : String) (r : HttpResp) : Except String ReqResult :=
  if r.ok = false then
    .error ("Failed to call " ++ action ++ ": " ++ toString r.status_code ++ " - " ++ r.text)
  else if r.contentType ≠ some "application/json" then
    .ok (.raw r)
  else if r.bodyStatus ≠ "success" then
    .error ("Failed to call " ++ action ++ ": status " ++ r.bodyStatus)
  else
    .ok (.payload r.bodyResponse)

/-- `GGNClient._do_request` minus the rate-limit decorators: build the
endpoint URL; when dry, return it without touching the network; otherwise
perform the GET (recorded as an effect) and interpret the response.
The GET itself may fail at transport level (`ReqError.other`), and an
interpretation failure is a `GGNClientException` (`ReqError.ggn`). -/
def doRequest (base_url : String) (net : String → Transport)
    (action : Option String) (args : Option (List (String × Option String)))
    (override_url : Option String) (dry : Bool) :
    List Effect × Except ReqError ReqResult :=
  let endpoint := actionUrl base_url action args override_url
  if dry then ([], .ok (.url endpoint))
  else
    match net endpoint with
    | .failure msg => ([.netGet endpoint], .error (.other msg))
    | .success r =>
      ([.netGet endpoint],
       match interpretResponse (optStr action) r with
       | .error m => .error (.ggn m)
       | .ok rr => .ok rr)

/-- The mutable client state: constructor token and base URL, plus the
lazily cached session user (`self._user`). -/
structure ClientState where
  token : Option String
  base_url : String
  user : Option UserInfo
deriving DecidableEq

/-- The override URL used by `download_torrent`. -/
def torrentsUrl : String := "https://gazellegames.net/torrents.php?"

/-- The argument dict passed by `download_torrent` (insertion order of the
Python literal). -/
def dlArgs (torrent_id : String) (u : UserInfo) : List (String × Option String) :=
  [("id", some torrent_id), ("authkey", some u.authkey), ("torrent_pass", some u.passkey)]

/-- What `print(response)` shows for each `_do_request` result shape. -/
def reqResultStr (r : ReqResult) : String :=
  match r with
  | .url u => u
  | .raw _ => "<response object>"
  | .payload _ => "<payload>"

/-- The tail of `GGNClient.download_torrent` once a session user is
available: issue the download request against the torrents endpoint with
the given dry flag; on a dry run print the returned URL and stop; on a
real run write the raw response body to `write_location` (a JSON payload
has no `.content`, which raises a non-GGN error). `effs0` are effects
already performed by the user-info fetch. -/
def downloadWithUser (st : ClientState) (net : String → Transport)
    (torrent_id : String) (write_location : Option String) (dry : Bool)
    (u : UserInfo) (effs0 : List Effect) :
    List Effect × ClientState × Except ReqError Unit :=
  let (effs1, res) :=
    doRequest st.base_url net (some "download") (some (dlArgs torrent_id u))
      (some torrentsUrl) dry
  match res with
  | .error err => (effs0 ++ effs1, st, .error err)
  | .ok r =>
    if dry then
      (effs0 ++ effs1 ++ [.printed (reqResultStr r)], st, .ok ())
    else
      match r with
      | .raw _ =>
        (effs0 ++ effs1 ++
          [.fileWrite (write_location.getD ""),
           .printed ("Torrent downloaded to " ++ write_location.getD "")],
         st, .ok ())
      | _ => (effs0 ++ effs1, st, .error (.other "response has no content attribute"))

/-- `GGNClient.download_torrent`: fail fast (a plain `Exception`, not a
`GGNClientException`) when not dry and no write location is given; fetch
and cache the session user with a real `quick_user` request when the cache
is cold; then perform the download request. Returns the accumulated
effects, the resulting client state and the outcome (the Python function
itself always returns `None`, modelled as `Unit`). -/
def downloadTorrent (st : ClientState) (net : String → Transport)
    (torrent_id : String) (write_location : Option String) (dry : Bool) :
    List Effect × ClientState × Except ReqError Unit :=
  if dry = false ∧ write_location = none then
    ([], st, .error (.other "write_location must be set if dry is False"))
  else
    match st.user with
    | some u => downloadWithUser st net torrent_id write_location dry u []
    | none =>
      let (effs, res) := doRequest st.base_url net (some "quick_user") none none false
      match res with
      | .error err => (effs, st, .error err)
      | .ok (.payload (.user u)) =>
        downloadWithUser { st with user := some u } net torrent_id write_location dry u effs
      | .ok _ => (effs, st, .error (.other "user record has no authkey"))

/-- The download phase of `src/downloader.py`: iterate the plan in order,
derive each filename from the sanitized release title, call
`download_torrent`, catch (and log) only `GGNClientException`; any other
exception propagates and aborts the remaining iterations. Returns the
torrent ids for which a download was attempted, whether the loop ran to
completion, and the final client state. -/
def downloadAll (net : String → Transport) (dry : Bool) (writePrefix : String) :
    ClientState → List (Nat × Candidate) → List String × Bool × ClientState
  | st, [] => ([], true, st)
  | st, (_, c) :: rest =>
    let loc := writePrefix ++ fileTranslate c.release_title ++ ".torrent"
    match downloadTorrent st net c.torrent_id (some loc) dry with
    | (_, st', .ok _) =>
      let r := downloadAll net dry writePrefix st' rest
      (c.torrent_id :: r.1, r.2.1, r.2.2)
    | (_, st', .error (.ggn _)) =>
      let r := downloadAll net dry writePrefix st' rest
      (c.torrent_id :: r.1, r.2.1, r.2.2)
    | (_, st', .error (.other _)) => ([c.torrent_id], false, st')

/-! Concrete environments used by the witnesses and counterexamples. -/

/-- Page source with two non-empty pages followed by empty pages. -/
def pagesEx (i : Nat) : List SearchGroup :=
  if i = 3 then [] else [⟨some [entA]⟩]

/-- A session user with concrete keys. -/
def userEx : UserInfo := { authkey := "AK", passkey := "PK" }

/-- Network that answers every GET with a JSON success envelope carrying
the session-user record. -/
def netGood : String → Transport :=
  fun _ =>
    .success
      { ok := true, status_code := 200, text := "", contentType := some "application/json"
        bodyStatus := "success", bodyResponse := .user userEx }

/-- Network on which every GET raises a transport error (e.g. the
10-second timeout configured on `requests.get`). -/
def netBad : String → Transport :=
  fun _ => .failure "timed out"

/-- A client freshly constructed with the default base URL: no cached
session user. -/
def stCold : ClientState :=
  { token := some "tok", base_url := "https://gazellegames.net/api.php", user := none }

/-- The same client after the session user has been cached. -/
def stWarm : ClientState :=
  { token := some "tok", base_url := "https://gazellegames.net/api.php", user := some userEx }

/-- A two-group download plan. -/
def planEx : List (Nat × Candidate) :=
  [(10, { torrent_id := "t1", release_title := "G1", seeders := 4 }),
   (11, { torrent_id := "t2", release_title := "G2", seeders := 2 })]

/-- A 2xx response whose content type carries a charset parameter and
whose envelope status is not a success. -/
def respCharset : HttpResp :=
  { ok := true, status_code := 200, text := "body"
    contentType := some "application/json; charset=utf-8"
    bodyStatus := "failure", bodyResponse := .data "d" }

/-! ## Helper lemmas -/

theorem mapLookup_insert_self (m : TMap) (k : Nat) (v : Candidate) :
    mapLookup (mapInsert m k v) k = some v := by
  induction m with
  | nil => simp [mapInsert, mapLookup]
  | cons p t ih =>
    by_cases h : p.1 = k
    · simp [mapInsert, mapLookup, h]
    · simp [mapInsert, mapLookup, h, ih]

theorem mapLookup_erase_self (m : TMap) (k : Nat) :
    mapLookup (mapErase m k) k = none := by
  induction m with
  | nil => simp [mapErase, mapLookup]
  | cons p t ih =>
    by_cases h : p.1 = k
    · simpa [mapErase, mapLookup, h] using ih
    · simpa [mapErase, mapLookup, h] using ih

theorem bestCand_some (c : Candidate) (l : List TorrentEntry) :
    ∃ d, bestCand (some c) l = some d := by
  induction l generalizing c with
  | nil => exact ⟨c, rfl⟩
  | cons x xs ih => simpa [bestCand] using ih _

theorem bestCand_eq_none (l : List TorrentEntry) (h : bestCand none l = none) :
    l = [] := by
  cases l with
  | nil => rfl
  | cons x xs =>
    obtain ⟨d, hd⟩ := bestCand_some (mkCand x) xs
    simp [bestCand, hd] at h

theorem bestCand_append (acc : Option Candidate) (l : List TorrentEntry)
    (e : TorrentEntry) :
    bestCand acc (l ++ [e])
      = (match bestCand acc l with
         | none => some (mkCand e)
         | some c => some (if c.seeders > e.seeders then c else mkCand e)) := by
  induction l generalizing acc with
  | nil => simp [bestCand]
  | cons x xs ih =>
    simp only [List.cons_append, bestCand]
    exact ih _

theorem processTorrents_lookup (g : Nat) (es : List TorrentEntry) (m : TMap)
    (hg : ∀ e ∈ es, e.groupId = g)
    (hns : ∀ e ∈ es, passesFilters e = true → e.isSnatched = false) :
    mapLookup (processTorrents m es) g
      = bestCand (mapLookup m g) (es.filter (fun e => passesFilters e)) := by
  induction es generalizing m with
  | nil => simp [processTorrents, bestCand]
  | cons e rest ih =>
    have hgrest : ∀ x ∈ rest, x.groupId = g :=
      fun x hx => hg x (List.mem_cons_of_mem _ hx)
    have hnsrest : ∀ x ∈ rest, passesFilters x = true → x.isSnatched = false :=
      fun x hx => hns x (List.mem_cons_of_mem _ hx)
    by_cases h1 : e.torrentType = "Torrent"
    · by_cases h2 : e.gameDOXType = ""
      · have hp : passesFilters e = true := by simp [passesFilters, h1, h2]
        have hsn : e.isSnatched = false := hns e (List.mem_cons_self _ _) hp
        have hge : e.groupId = g := hg e (List.mem_cons_self _ _)
        have hfil : (e :: rest).filter (fun x => passesFilters x)
            = e :: rest.filter (fun x => passesFilters x) := by
          simp [List.filter_cons, hp]
        rw [hfil]
        cases hm : mapLookup m g with
        | none =>
          have hstep : processTorrents m (e :: rest)
              = processTorrents (mapInsert m g (mkCand e)) rest := by
            simp [processTorrents, h1, h2, hsn, hge, hm]
          rw [hstep, ih _ hgrest hnsrest, mapLookup_insert_self]
          simp [bestCand]
        | some c =>
          by_cases hcs : c.seeders > e.seeders
          · have hstep : processTorrents m (e :: rest) = processTorrents m rest := by
              simp [processTorrents, h1, h2, hsn, hge, hm, hcs]
            rw [hstep, ih _ hgrest hnsrest, hm]
            simp [bestCand, hcs]
          · have hstep : processTorrents m (e :: rest)
                = processTorrents (mapInsert m g (mkCand e)) rest := by
              simp [processTorrents, h1, h2, hsn, hge, hm, hcs]
            rw [hstep, ih _ hgrest hnsrest, mapLookup_insert_self]
            simp [bestCand, hcs]
      · have hp : passesFilters e = false := by simp [passesFilters, h2]
        have hstep : processTorrents m (e :: rest) = processTorrents m rest := by
          simp [processTorrents, h1, h2]
        rw [hstep, ih _ hgrest hnsrest]
        simp [List.filter_cons, hp]
    · have hp : passesFilters e = false := by simp [passesFilters, h1]
      have hstep : processTorrents m (e :: rest) = processTorrents m rest := by
        simp [processTorrents, h1]
      rw [hstep, ih _ hgrest hnsrest]
      simp [List.filter_cons, hp]

theorem bestCand_argmax (fs : List TorrentEntry) (c : Candidate)
    (h : bestCand none fs = some c) :
    ∃ l₁ e l₂, fs = l₁ ++ e :: l₂ ∧ c = mkCand e ∧
      (∀ x ∈ fs, x.seeders ≤ e.seeders) ∧
      (∀ x ∈ l₂, x.seeders < e.seeders) := by
  induction fs using List.reverseRecOn generalizing c with
  | nil => simp [bestCand] at h
  | append_singleton l e ih =>
    rw [bestCand_append] at h
    cases hb : bestCand none l with
    | none =>
      have hl : l = [] := bestCand_eq_none l hb
      rw [hb] at h
      simp only [Option.some.injEq] at h
      refine ⟨[], e, [], by simp [hl], h.symm, ?_, ?_⟩
      · intro x hx
        rw [hl] at hx
        simp at hx
        simp [hx]
      · intro x hx
        simp at hx
    | some b =>
      rw [hb] at h
      simp only [Option.some.injEq] at h
      obtain ⟨l₁, a, l₂, hsplit, hba, hub, hstrict⟩ := ih b hb
      by_cases hgt : b.seeders > e.seeders
      · rw [if_pos hgt] at h
        refine ⟨l₁, a, l₂ ++ [e], by simp [hsplit], by rw [← h, hba], ?_, ?_⟩
        · intro x hx
          rcases List.mem_append.mp hx with hx | hx
          · exact hub x hx
          · simp at hx
            subst hx
            have : a.seeders = b.seeders := by rw [hba, mkCand]
            omega
        · intro x hx
          rcases List.mem_append.mp hx with hx | hx
          · exact hstrict x hx
          · simp at hx
            subst hx
            have : a.seeders = b.seeders := by rw [hba, mkCand]
            omega
      · rw [if_neg hgt] at h
        refine ⟨l, e, [], by simp, h.symm, ?_, ?_⟩
        · intro x hx
          rcases List.mem_append.mp hx with hx | hx
          · have hxa : x.seeders ≤ a.seeders := hub x hx
            have : a.seeders = b.seeders := by rw [hba, mkCand]
            omega
          · simp at hx
            simp [hx]
        · intro x hx
          simp at hx

/-! ## Claim theorems -/

/-- C1 (counterexample): the claim says that when two filter-passing,
non-snatched entries of a group have equal seeder counts, the one
processed first is kept. In the code the current candidate survives only
when its seeder count is strictly greater, so on a tie the later entry
replaces it: processing `entT1` then `entT2` (both 2 seeders, group 20)
records `entT2`, not the first-processed `entT1`. -/
theorem c1_tie_counterexample :
    mapLookup (processTorrents [] [entT1, entT2]) 20 = some (mkCand entT2) ∧
    mkCand entT2 ≠ mkCand entT1 := by decide

/-- C1 (amended): for a group none of whose filter-passing entries is
snatched, the candidate recorded for its group identifier is a
filter-passing entry with the maximum seeder count, and it is the last
such entry in encounter order: every entry processed after it has strictly
fewer seeders (ties resolve to the entry processed last, because a later
entry replaces the current candidate whenever its seeder count is greater
than or equal). -/
theorem c1_selection (es : List TorrentEntry) (g : Nat) (m : TMap)
    (hg : ∀ e ∈ es, e.groupId = g)
    (hns : ∀ e ∈ es, passesFilters e = true → e.isSnatched = false)
    (hm : mapLookup m g = none)
    (hne : es.filter (fun e => passesFilters e) ≠ []) :
    ∃ l₁ e l₂, es.filter (fun e => passesFilters e) = l₁ ++ e :: l₂ ∧
      mapLookup (processTorrents m es) g = some (mkCand e) ∧
      (∀ x ∈ es.filter (fun e => passesFilters e), x.seeders ≤ e.seeders) ∧
      (∀ x ∈ l₂, x.seeders < e.seeders) := by
  have hb := processTorrents_lookup g es m hg hns
  rw [hm] at hb
  obtain ⟨c, hc⟩ : ∃ c, bestCand none (es.filter (fun e => passesFilters e)) = some c := by
    cases hfs : es.filter (fun e => passesFilters e) with
    | nil => exact absurd hfs hne
    | cons x xs =>
      obtain ⟨d, hd⟩ := bestCand_some (mkCand x) xs
      exact ⟨d, by simpa [bestCand] using hd⟩
  obtain ⟨l₁, e, l₂, hsplit, hce, hub, hstrict⟩ := bestCand_argmax _ c hc
  exact ⟨l₁, e, l₂, hsplit, by rw [hb, hc, hce], hub, hstrict⟩

/-- C1 (witness): the amended selection theorem applied to the concrete
group-20 list `[entA, entT1]` (3 seeders then 2 seeders, both passing,
none snatched) starting from the empty map. -/
theorem c1_selection_witness :
    mapLookup ([] : TMap) 20 = none ∧
    (∃ l₁ e l₂,
      ([entA, entT1].filter (fun e => passesFilters e)) = l₁ ++ e :: l₂ ∧
      mapLookup (processTorrents [] [entA, entT1]) 20 = some (mkCand e) ∧
      (∀ x ∈ [entA, entT1].filter (fun e => passesFilters e), x.seeders ≤ e.seeders) ∧
      (∀ x ∈ l₂, x.seeders < e.seeders)) :=
  ⟨rfl,
   c1_selection [entA, entT1] 20 [] (by decide) (by decide) rfl (by decide)⟩

/-- C2 (counterexample): the claim says that after removing the candidate
for a snatched entry the engine keeps scanning the rest of that group's
entry list, so a later non-snatched entry is still considered. In the code
the snatched branch ends in `break`: processing the snatched `entS`
followed by the live `entL` (5 seeders, same group 20) leaves group 20
with no candidate, although `entL` on its own would have been recorded. -/
theorem c2_break_counterexample :
    mapLookup (processTorrents [] [entS, entL]) 20 = none ∧
    mapLookup (processTorrents [] [entL]) 20 = some (mkCand entL) := by decide

/-- C2 (amended): when a filter-passing entry flagged as snatched is
encountered, the engine removes any existing candidate for that entry's
group identifier and breaks out of that group's entry list: the remaining
entries of the list are not scanned at all, and the group identifier has
no candidate afterwards (entries of the same group met in a later list or
page are still considered, since processing there starts over). -/
theorem c2_snatched_breaks (m : TMap) (e : TorrentEntry) (rest : List TorrentEntry)
    (h1 : e.torrentType = "Torrent") (h2 : e.gameDOXType = "")
    (h3 : e.isSnatched = true) :
    processTorrents m (e :: rest) = mapErase m e.groupId ∧
    mapLookup (processTorrents m (e :: rest)) e.groupId = none := by
  have hstep : processTorrents m (e :: rest) = mapErase m e.groupId := by
    simp [processTorrents, h1, h2, h3]
  exact ⟨hstep, by rw [hstep]; exact mapLookup_erase_self m e.groupId⟩

/-- C2 (witness): the amended break theorem applied to the snatched entry
`entS` followed by the live entry `entL`, starting from a map that already
holds a candidate for group 20. -/
theorem c2_snatched_breaks_witness :
    processTorrents [(20, mkCand entA)] (entS :: [entL])
      = mapErase [(20, mkCand entA)] entS.groupId ∧
    mapLookup (processTorrents [(20, mkCand entA)] (entS :: [entL])) entS.groupId
      = none :=
  c2_snatched_breaks [(20, mkCand entA)] entS [entL] rfl rfl rfl

/-- C3 (counterexample): the claim says every character of the set
`[ \ / " * ? < > | ] :` is replaced by an underscore. The translation
table maps `/` to a hyphen instead: `a/b` becomes `a-b`, not `a_b`. -/
theorem c3_slash_counterexample :
    fileTranslate "a/b" = "a-b" ∧ fileTranslate "a/b" ≠ "a_b" := by decide

/-- C3 (amended): filename derivation replaces every character of the set
`[ \ " * ? < > | ] :` in the release title with an underscore, replaces
`/` with a hyphen, and leaves every other character unchanged; in
particular `Sonic: The Hedgehog [JP]` becomes `Sonic_ The Hedgehog _JP_`. -/
theorem c3_translate (c : Char) :
    (c ∈ ['[', '\\', '"', '*', '?', '<', '>', '|', ']', ':'] → translateChar c = '_') ∧
    translateChar '/' = '-' ∧
    (c ∉ ['[', '\\', '/', '"', '*', '?', '<', '>', '|', ']', ':'] → translateChar c = c) ∧
    fileTranslate "Sonic: The Hedgehog [JP]" = "Sonic_ The Hedgehog _JP_" := by
  refine ⟨?_, by decide, ?_, by decide⟩
  · intro hc
    fin_cases hc <;> rfl
  · intro hc
    simp only [List.mem_cons, List.not_mem_nil, or_false] at hc
    push_neg at hc
    obtain ⟨n1, n2, n3, n4, n5, n6, n7, n8, n9, n10, n11⟩ := hc
    simp [translateChar, n1, n2, n3, n4, n5, n6, n7, n8, n9, n10, n11]

/-- C3 (witness): the amended translation theorem evaluated at the bracket
character (mapped to an underscore) and at a plain letter (unchanged). -/
theorem c3_translate_witness :
    translateChar '[' = '_' ∧ translateChar 'a' = 'a' :=
  ⟨(c3_translate '[').1 (by decide), (c3_translate 'a').2.2.1 (by decide)⟩

/-- C6 (confirmed): in the spec's scenario, group 20 holds torrent A
(3 seeders, not snatched) processed before torrent B (1 seeder, snatched)
in the same entry list; A alone would have been recorded, but the snatched
B pops the group's current candidate, so group 20 is absent from the final
plan. -/
theorem c6_snatched_drops_group :
    processTorrents [] [entA] = [(20, mkCand entA)] ∧
    processPage [] [⟨some [entA, entB]⟩] = [] ∧
    mapLookup (processPage [] [⟨some [entA, entB]⟩]) 20 = none := by decide

/-- Generalized run lemma for the pagination loop: if the pages from `p`
up to (excluding) `p + d` are all non-empty and page `p + d` is empty,
then with enough fuel the loop requests exactly pages `p, p+1, ..., p+d`
and folds the page processor over the non-empty ones. -/
theorem scanLoop_run (pages : Nat → List SearchGroup) (d : Nat) :
    ∀ (p fuel : Nat) (m : TMap),
      pages (p + d) = [] →
      (∀ i, p ≤ i → i < p + d → pages i ≠ []) →
      d < fuel →
      scanLoop pages fuel p m
        = some (List.range' p (d + 1),
            (List.range' p d).foldl (fun acc i => processPage acc (pages i)) m) := by
  induction d with
  | zero =>
    intro p fuel m hemp _ hfuel
    cases fuel with
    | zero => omega
    | succ f =>
      simp only [Nat.add_zero] at hemp
      simp [scanLoop, hemp, List.range']
  | succ d ih =>
    intro p fuel m hemp hfull hfuel
    cases fuel with
    | zero => omega
    | succ f =>
      have hp : pages p ≠ [] := hfull p (le_refl p) (by omega)
      have hemp' : pages (p + 1 + d) = [] := by
        have heq : p + 1 + d = p + (d + 1) := by omega
        rw [heq]
        exact hemp
      have hfull' : ∀ i, p + 1 ≤ i → i < p + 1 + d → pages i ≠ [] :=
        fun i hi1 hi2 => hfull i (by omega) (by omega)
      have hrec := ih (p + 1) f (processPage m (pages p)) hemp' hfull' (by omega)
      have hlen : ¬ (pages p).length = 0 := by
        simpa [List.length_eq_zero] using hp
      simp only [scanLoop, hlen, if_false, hrec, List.range']
      simp [List.range']

/-- C5 (confirmed): for a category scan whose first empty page is page `k`
(every earlier page from 1 on is non-empty), the loop requests exactly
pages `1, 2, ..., k` — starting at 1, incrementing by exactly 1, skipping
none — and stops at page `k`: that page contributes nothing to the
candidate map (the fold covers only pages `1, ..., k-1`) and no page after
`k` is requested. -/
theorem c5_pagination (pages : Nat → List SearchGroup) (k fuel : Nat) (m₀ : TMap)
    (hk : 1 ≤ k)
    (hemp : pages k = [])
    (hfull : ∀ i, 1 ≤ i → i < k → pages i ≠ [])
    (hfuel : k ≤ fuel) :
    scanLoop pages fuel 1 m₀
      = some (List.range' 1 k,
          (List.range' 1 (k - 1)).foldl (fun acc i => processPage acc (pages i)) m₀) := by
  have hemp' : pages (1 + (k - 1)) = [] := by
    have heq : 1 + (k - 1) = k := by omega
    rw [heq]
    exact hemp
  have hfull' : ∀ i, 1 ≤ i → i < 1 + (k - 1) → pages i ≠ [] :=
    fun i h1 h2 => hfull i h1 (by omega)
  have h := scanLoop_run pages (k - 1) 1 fuel m₀ hemp' hfull' (by omega)
  have heq : k - 1 + 1 = k := by omega
  rw [heq] at h
  exact h

/-- C5 (witness): the pagination theorem applied to the concrete page
source `pagesEx`, whose pages 1 and 2 are non-empty and whose page 3 is
the first empty page: the scan requests pages `[1, 2, 3]` and the map is
built from pages 1 and 2 only. -/
theorem c5_pagination_witness :
    scanLoop pagesEx 5 1 []
      = some (List.range' 1 3,
          (List.range' 1 2).foldl (fun acc i => processPage acc (pagesEx i)) []) :=
  c5_pagination pagesEx 3 5 [] (by norm_num) (by simp [pagesEx])
    (fun i h1 h2 => by simp [pagesEx, Nat.ne_of_lt h2]) (by norm_num)

/-- C9 (confirmed): request-URL construction serializes exactly the
parameters whose value is present — every `key=value` pair with a present
value appears among the serialized components, every serialized component
comes from a pair with a present value (so a `None`-valued parameter is
never serialized, neither as an empty string nor as a null literal), and
dropping the absent-valued pairs beforehand changes nothing; with an
action and a non-empty argument mapping the full URL is the base plus the
request name plus exactly those components joined with ampersands. -/
theorem c9_omit_none (args : List (String × Option String)) :
    (∀ k v, (k, some v) ∈ args → (k ++ "=" ++ v) ∈ serializeArgs args) ∧
    (∀ s, s ∈ serializeArgs args → ∃ k v, (k, some v) ∈ args ∧ s = k ++ "=" ++ v) ∧
    serializeArgs (args.filter (fun p => p.2.isSome)) = serializeArgs args ∧
    (∀ (b a : String), a ≠ "" → args ≠ [] →
      actionUrl b (some a) (some args) none
        = b ++ "?" ++ "&request=" ++ a ++ "&"
            ++ ("&" ++ String.intercalate "&" (serializeArgs args))) := by
  refine ⟨?_, ?_, ?_, ?_⟩
  · intro k v hkv
    rw [serializeArgs, List.mem_filterMap]
    exact ⟨(k, some v), hkv, rfl⟩
  · intro s hs
    rw [serializeArgs, List.mem_filterMap] at hs
    obtain ⟨⟨k, ov⟩, hmem, hf⟩ := hs
    cases ov with
    | none => simp at hf
    | some v =>
      simp only [Option.map_some] at hf
      exact ⟨k, v, hmem, (Option.some.injEq _ _ ▸ hf).symm⟩
  · induction args with
    | nil => rfl
    | cons p rest ih =>
      obtain ⟨k, ov⟩ := p
      cases ov with
      | none => simpa [serializeArgs, List.filter_cons] using ih
      | some v => simpa [serializeArgs, List.filter_cons] using ih
  · intro b a ha hargs
    have hlen : 0 < args.length := List.length_pos.mpr hargs
    simp [actionUrl, ha, hlen]

/-- C9 (witness): the serialization theorem at the concrete argument
mapping `{"a": "1", "b": None}`: the present pair is serialized. -/
theorem c9_omit_none_witness :
    ("a" ++ "=" ++ "1") ∈ serializeArgs [("a", some "1"), ("b", none)] :=
  (c9_omit_none [("a", some "1"), ("b", none)]).1 "a" "1" (by decide)

/-- C10 (confirmed): for a 2xx (ok) response, the pipeline checks the JSON
envelope's status field only when the `Content-Type` header equals the
exact string `application/json`: for any other header value — including
`application/json` with a charset parameter, and a missing header — the
raw response is returned unmodified and no API error can arise on that
path, whatever the body says; with the exact header, a non-success status
raises the API error and a success status yields the envelope's response
payload. -/
theorem c10_content_type (action : String) (r : HttpResp) (hok : r.ok = true) :
    (r.contentType ≠ some "application/json" →
      interpretResponse action r = .ok (.raw r)) ∧
    (r.contentType = some "application/json" → r.bodyStatus ≠ "success" →
      interpretResponse action r
        = .error ("Failed to call " ++ action ++ ": status " ++ r.bodyStatus)) ∧
    (r.contentType = some "application/json" → r.bodyStatus = "success" →
      interpretResponse action r = .ok (.payload r.bodyResponse)) := by
  refine ⟨?_, ?_, ?_⟩
  · intro h1
    simp [interpretResponse, hok, h1]
  · intro h1 h2
    simp [interpretResponse, hok, h1, h2]
  · intro h1 h2
    simp [interpretResponse, hok, h1, h2]

/-- C10 (witness): the content-type theorem at the concrete 2xx response
`respCharset`, whose header is `application/json; charset=utf-8` and whose
envelope status is not a success: the raw response is returned and no
API error occurs. -/
theorem c10_content_type_witness :
    respCharset.ok = true ∧
    respCharset.contentType ≠ some "application/json" ∧
    interpretResponse "search" respCharset = .ok (.raw respCharset) :=
  ⟨rfl, by decide, (c10_content_type "search" respCharset rfl).1 (by decide)⟩

/-- C8 (counterexample): the claim says a dry-run download transfers no
response body bytes over the network and returns the fully-constructed
endpoint URL as a string. On a client whose session user is not yet
cached, a dry-run `download_torrent` performs a real network GET of the
`quick_user` endpoint — whose response body is consumed to populate the
user cache — and the function itself returns `None` (here `Unit`), the
URL being only printed. -/
theorem c8_cold_cache_counterexample :
    Effect.netGet (actionUrl stCold.base_url (some "quick_user") none none)
      ∈ (downloadTorrent stCold netGood "42" (some "loc") true).1 ∧
    (downloadTorrent stCold netGood "42" (some "loc") true).2.1.user = some userEx ∧
    (downloadTorrent stCold netGood "42" (some "loc") true).2.2 = .ok () :=
  ⟨by decide, by decide, by rfl⟩

/-- C8 (amended): a dry-run download performs no filesystem write
whatever the client state, and never issues the download request itself;
when the session user is cached, the run performs no network call at all
and deterministically prints (rather than returns) the fully-constructed
torrents-endpoint URL built from the torrent id and the cached keys, the
call returning nothing; only a cold user cache adds one real network call
to the user-info endpoint first. -/
theorem c8_dry_download (st : ClientState) (net : String → Transport)
    (tid : String) (loc : Option String) (u : UserInfo)
    (h : st.user = some u) :
    downloadTorrent st net tid loc true
      = ([.printed (actionUrl st.base_url (some "download") (some (dlArgs tid u))
            (some torrentsUrl))],
         st, .ok ()) ∧
    ∀ (st₂ : ClientState) (l : String),
      Effect.fileWrite l ∉ (downloadTorrent st₂ net tid loc true).1 := by
  constructor
  · simp [downloadTorrent, h, downloadWithUser, doRequest, reqResultStr]
  · intro st₂ l
    cases hu : st₂.user with
    | some u₂ =>
      simp [downloadTorrent, hu, downloadWithUser, doRequest, reqResultStr]
    | none =>
      cases hn : net (actionUrl st₂.base_url (some "quick_user") none none) with
      | failure msg =>
        simp [downloadTorrent, hu, doRequest, hn]
      | success r =>
        cases hi : interpretResponse (optStr (some "quick_user")) r with
        | error m =>
          simp [downloadTorrent, hu, doRequest, hn, hi]
        | ok rr =>
          cases rr with
          | url u3 =>
            simp [downloadTorrent, hu, doRequest, hn, hi]
          | raw r2 =>
            simp [downloadTorrent, hu, doRequest, hn, hi]
          | payload p =>
            cases p with
            | user u4 =>
              simp [downloadTorrent, hu, doRequest, hn, hi, downloadWithUser,
                reqResultStr]
            | data s =>
              simp [downloadTorrent, hu, doRequest, hn, hi]

/-- C8 (witness): the dry-run theorem on the warmed-up client `stWarm`:
the run produces exactly one print effect carrying the constructed URL,
leaves the state unchanged, touches neither the network nor the
filesystem, and returns unit. -/
theorem c8_dry_download_witness :
    stWarm.user = some userEx ∧
    downloadTorrent stWarm netGood "42" none true
      = ([.printed (actionUrl stWarm.base_url (some "download")
            (some (dlArgs "42" userEx)) (some torrentsUrl))],
         stWarm, .ok ()) :=
  ⟨rfl, (c8_dry_download stWarm netGood "42" none userEx rfl).1⟩

/-- C4 (counterexample): the claim says every failure of a single group's
download is caught and the remaining groups are still attempted. Only
`GGNClientException` is caught: on a network where every GET raises a
transport error (the configured 10-second timeout), the first download of
the two-group plan fails with a non-GGN error, the loop aborts, and the
second group is never attempted. -/
theorem c4_abort_counterexample :
    (downloadAll netBad true "./" stCold planEx).1 = ["t1"] ∧
    (downloadAll netBad true "./" stCold planEx).2.1 = false := by decide

/-- C4 (amended): the download loop catches and logs exactly the failures
surfaced as `GGNClientException` (HTTP-level failures and error
envelopes); under an environment in which no download can raise any other
exception, a download is attempted for every group of the plan, in order,
and the loop runs to completion however many of those downloads fail; an
exception of any other class (transport/timeout, filesystem) propagates
and aborts the remaining plan. -/
theorem c4_download_loop (net : String → Transport) (dry : Bool) (wp : String)
    (h : ∀ (st : ClientState) (tid : String) (loc : Option String) (msg : String),
      (downloadTorrent st net tid loc dry).2.2 ≠ .error (.other msg)) :
    ∀ (st : ClientState) (plan : List (Nat × Candidate)),
      (downloadAll net dry wp st plan).1 = plan.map (fun p => p.2.torrent_id) ∧
      (downloadAll net dry wp st plan).2.1 = true := by
  intro st plan
  induction plan generalizing st with
  | nil => simp [downloadAll]
  | cons p rest ih =>
    obtain ⟨gid, c⟩ := p
    rcases hdl : downloadTorrent st net c.torrent_id
        (some (wp ++ fileTranslate c.release_title ++ ".torrent")) dry
      with ⟨effs, st', res⟩
    cases res with
    | ok u =>
      simp [downloadAll, hdl, (ih st').1, (ih st').2]
    | error err =>
      cases err with
      | ggn m =>
        simp [downloadAll, hdl, (ih st').1, (ih st').2]
      | other m =>
        have : (downloadTorrent st net c.torrent_id
            (some (wp ++ fileTranslate c.release_title ++ ".torrent")) dry).2.2
            = .error (.other m) := by rw [hdl]
        exact absurd this (h st c.torrent_id _ m)

/-- C4 (witness): the loop theorem on the all-success network `netGood`
with dry mode on: every download of the two-group plan is attempted and
the loop completes. -/
theorem c4_download_loop_witness :
    (downloadAll netGood true "./" stCold planEx).1
      = planEx.map (fun p => p.2.torrent_id) ∧
    (downloadAll netGood true "./" stCold planEx).2.1 = true :=
  c4_download_loop netGood true "./"
    (fun st tid loc msg => by
      cases hu : st.user with
      | some u =>
        simp [downloadTorrent, hu, downloadWithUser, doRequest, netGood,
          reqResultStr]
      | none =>
        simp [downloadTorrent, hu, downloadWithUser, doRequest, netGood,
          interpretResponse, reqResultStr])
    stCold planEx

end GGN

